import Mathlib

/-!
Verification development for the TXT-combining / lookup / formatting pipeline
of `src/app.py` (a Streamlit data-transformation app).

The embedding models the core data pipeline: per-file parse results are
combined (`pd.concat` loop, lines 33-39), the transient `source_file` column
is dropped and the `No.` column regenerated (lines 41-48), an optional lookup
join adds an `Account` column (lines 51-65), a `Description` column is derived
(lines 74-91), the `Account` column is normalized (lines 95-104), and the
table branches into a display copy with string formatting (lines 106-120)
and the export table written to the spreadsheet (lines 126-128).

Tables are modelled as a column-name list plus a list of rows (lists of
cells); a cell is a string, an exact rational number (standing for the
numeric values the pandas code holds as ints/floats; binary floating-point
rounding is not modelled, values are assumed exactly representable), or null
(NaN / missing).
-/

/-- A single cell of a pandas DataFrame: a string, a number, or NaN/missing. -/
inductive Cell where
  | str (s : String)
  | num (q : ℚ)
  | null
  deriving DecidableEq, Repr

/-- A DataFrame: ordered column names plus rows (each row a list of cells,
positionally aligned with `cols`). -/
structure Table where
  cols : List String
  rows : List (List Cell)
  deriving DecidableEq, Repr

/-- An empty DataFrame, `pd.DataFrame()` (line 31). -/
def emptyTable : Table := ⟨[], []⟩

/-- Index of the first column with the given name (pandas label lookup). -/
def colIdx : List String → String → Option ℕ
  | [], _ => none
  | c :: cs, s => if c = s then some 0 else (colIdx cs s).map (· + 1)

/-- The cell of `row` in the column named `c` (null when the column is
absent or the row is too short, i.e. a missing value). -/
def getCellAt (cols : List String) (row : List Cell) (c : String) : Cell :=
  match colIdx cols c with
  | some i => row.getD i Cell.null
  | none => Cell.null

/-- Boolean test that `p` is a leading segment of `l` (`str.startswith`). -/
def pref : List Char → List Char → Bool
  | [], _ => true
  | _ :: _, [] => false
  | p :: ps, c :: cs => p = c && pref ps cs

/-- Boolean substring test, Python's `needle in hay`. -/
def strContains (hay nee : List Char) : Bool :=
  match hay with
  | [] => nee.isEmpty
  | _ :: t => pref nee hay || strContains t nee

/-- Python `str.upper()` (ASCII; the inputs exercised are ASCII). -/
def pyUpper (s : String) : String := ⟨s.data.map Char.toUpper⟩

/-! ### The Identifier Normalizer, `clean_account` (app.py lines 95-104) -/

/-- Python `val.replace("000000", "0000")`: a single left-to-right scan;
each non-overlapping occurrence of six zeros is replaced by four zeros and
scanning resumes after the consumed occurrence (the emitted zeros are not
rescanned). -/
def replace6 : List Char → List Char
  | a :: b :: c :: d :: e :: f :: rest =>
    if a = '0' ∧ b = '0' ∧ c = '0' ∧ d = '0' ∧ e = '0' ∧ f = '0' then
      '0' :: '0' :: '0' :: '0' :: replace6 rest
    else
      a :: replace6 (b :: c :: d :: e :: f :: rest)
  | l => l

/-- Character-list body of `clean_account` (lines 96-102): global
`"000000" -> "0000"` replacement, then rewrite of a leading `R10000` to
`R10`, then of a leading `S10000` to `S10` (both checks run on the current
value, in that order). -/
def cleanL (l : List Char) : List Char :=
  let v1 := replace6 l
  let v2 := if pref ['R', '1', '0', '0', '0', '0'] v1 then
      'R' :: '1' :: '0' :: v1.drop 6
    else v1
  if pref ['S', '1', '0', '0', '0', '0'] v2 then
    'S' :: '1' :: '0' :: v2.drop 6
  else v2

/-- `clean_account` on a string value (lines 95-102). Non-string cells are
handled at the column level (`isinstance(val, str)` guard). -/
def clean_account (s : String) : String := ⟨cleanL s.data⟩

/-- Length of the leading run of `'0'` characters. -/
def leadZeros : List Char → ℕ
  | [] => 0
  | c :: r => if c = '0' then leadZeros r + 1 else 0

/-- `true` iff the list contains six consecutive `'0'` characters, i.e.
contains `"000000"` as a substring. -/
def hasZ6 : List Char → Bool
  | [] => false
  | c :: r => decide (6 ≤ leadZeros (c :: r)) || hasZ6 r

/-! ### Decimal rendering primitives (for `format_number` and `str(...)`) -/

/-- The decimal digit character for `d < 10`. -/
def digitChar (d : ℕ) : Char := Char.ofNat (48 + d)

/-- Decimal digits of `n`, most significant first (fuel-driven so that the
definition is structural and evaluates in the kernel). -/
def natDigitsAux : ℕ → ℕ → List Char
  | 0, _ => []
  | fuel + 1, n => if n = 0 then [] else natDigitsAux fuel (n / 10) ++ [digitChar (n % 10)]

/-- Decimal digit characters of a natural number (`"0"` for zero). -/
def natDigits (n : ℕ) : List Char := if n = 0 then ['0'] else natDigitsAux n n

/-- Plain decimal string of a natural number. -/
def natPlainStr (n : ℕ) : String := ⟨natDigits n⟩

/-- Plain decimal string of an integer (Python `str(int)`). -/
def intPlainStr (z : ℤ) : String := (if z < 0 then "-" else "") ++ natPlainStr z.natAbs

/-- Insert a comma after every third character; applied to the reversed
digit list this realizes the `,` grouping option of Python format specs. -/
def group3 : List Char → List Char
  | a :: b :: c :: d :: rest => a :: b :: c :: ',' :: group3 (d :: rest)
  | l => l

/-- Thousands-grouped decimal string of a natural number (`f"{n:,}"`). -/
def commaNat (n : ℕ) : String := ⟨(group3 (natDigits n).reverse).reverse⟩

/-- Thousands-grouped decimal string of an integer (`f"{int(val):,}"`,
app.py line 110). -/
def intComma (z : ℤ) : String := (if z < 0 then "-" else "") ++ commaNat z.natAbs

/-- Least `k` with `d ∣ 10 ^ k`, searched up to 39 (enough for every
denominator of a decimal that a 64-bit float stores exactly). -/
def decExp (d : ℕ) : Option ℕ := (List.range 40).find? fun k => decide (d ∣ 10 ^ k)

/-- The fractional digits of `|q|` as a natural number, scaled by `10 ^ k`
(exact when `q.den ∣ 10 ^ k`). -/
def fracNat (q : ℚ) (k : ℕ) : ℕ := q.num.natAbs * 10 ^ k / q.den % 10 ^ k

/-- The fractional digit block of `|q|`, zero-padded on the left to `k`
digits. With `k` minimal (`decExp`) this is exactly the digit run Python's
shortest-round-trip float formatting prints after the decimal point. -/
def fracStr (q : ℚ) (k : ℕ) : String :=
  let ds := natDigits (fracNat q k)
  ⟨List.replicate (k - ds.length) '0' ++ ds⟩

/-- `format_number` (app.py lines 106-114) on the value held by the
coerced monetary column: `none` models NaN (a float; `float(nan)` raises no
exception, `nan.is_integer()` is `False`, and `f"{nan:,}"` prints `"nan"`,
so the `except` branch returning `""` is not taken). For a finite value,
an integral value takes the `f"{int(val):,}"` branch and a non-integral
value the `f"{val:,}"` branch, which groups the integer part and prints the
shortest decimal digits of the fraction (no padding to two places). -/
def format_number (v : Option ℚ) : String :=
  match v with
  | none => "nan"
  | some q =>
    if q.den = 1 then intComma q.num
    else
      match decExp q.den with
      | some k =>
        (if q < 0 then "-" else "") ++ commaNat (q.num.natAbs / q.den) ++ "." ++ fracStr q k
      | none => ""

/-- Numeric value of a digit character. -/
def digVal (c : Char) : ℕ := c.toNat - 48

/-- Value of a digit-character block read in base 10. -/
def digitsVal (l : List Char) : ℕ := l.foldl (fun a c => a * 10 + digVal c) 0

/-- Decimal-literal parsing of a string cell, modelling the numeric
coercion done by `pd.to_numeric` / `float` on plain decimal literals:
optional sign, integer digits, optional fraction; anything else fails
(scientific notation and locale spellings are not exercised here). -/
def parseDecimal (l : List Char) : Option ℚ :=
  let sgn : ℚ := match l with | '-' :: _ => -1 | _ => 1
  let l1 : List Char := match l with | '-' :: r => r | '+' :: r => r | r => r
  let ip := l1.takeWhile Char.isDigit
  let rest := l1.dropWhile Char.isDigit
  match rest with
  | [] => if ip.isEmpty then none else some (sgn * digitsVal ip)
  | '.' :: fr =>
    if fr.all Char.isDigit ∧ ¬(ip.isEmpty ∧ fr.isEmpty) then
      some (sgn * ((digitsVal ip : ℚ) + (digitsVal fr : ℚ) / 10 ^ fr.length))
    else none
  | _ => none

/-- `pd.to_numeric(val, errors="coerce")` on a single cell (app.py line
119): numbers pass through, parsable strings become numbers, everything
else becomes NaN (`none`). -/
def toNumericCell (c : Cell) : Option ℚ :=
  match c with
  | Cell.num q => some q
  | Cell.str s => parseDecimal s.data
  | Cell.null => none

/-- The per-cell display transformation of the monetary columns (lines
119-120): numeric coercion followed by `format_number`. -/
def displayCellStr (c : Cell) : String := format_number (toNumericCell c)

/-- Python `str(float)` for an exactly-representable decimal (used by
`astype(str)` on float columns and by `str(row[...])`). -/
def pyFloatStr (q : ℚ) : String :=
  (if q < 0 then "-" else "") ++ natPlainStr (q.num.natAbs / q.den) ++ "." ++
    (match decExp q.den with
     | some k => if q.den = 1 then "0" else fracStr q k
     | none => "")

/-- Python `str(...)` of a cell (`astype(str)` / `str(row[...])`): strings
pass through, integral numbers print as plain integers (int64 columns),
non-integral numbers as float literals, NaN prints `"nan"`. -/
def cellPyStr (c : Cell) : String :=
  match c with
  | Cell.str s => s
  | Cell.num q => if q.den = 1 then intPlainStr q.num else pyFloatStr q
  | Cell.null => "nan"

/-! ### The Field Deriver, `build_description` (app.py lines 74-91) -/

/-- Transaction-type label (lines 76-82): case-insensitive substring tests
for `SUBSCR` then `REDEMP`, otherwise the first six characters of the raw
string (no uppercasing on the fallback). -/
def labelOf (ttype : String) : String :=
  if strContains (pyUpper ttype).data "SUBSCR".data then "Subscr"
  else if strContains (pyUpper ttype).data "REDEMP".data then "Redemp"
  else ⟨ttype.data.take 6⟩

/-- The `%Y` field of CPython's strptime table: exactly four digits. -/
def parseY (l : List Char) : Option (ℕ × List Char) :=
  match l with
  | a :: b :: c :: d :: r =>
    if a.isDigit ∧ b.isDigit ∧ c.isDigit ∧ d.isDigit then
      some (1000 * digVal a + 100 * digVal b + 10 * digVal c + digVal d, r)
    else none
  | _ => none

/-- The `%m` field: the regex alternatives `1[0-2] | 0[1-9] | [1-9]`, in
priority order, each with the unconsumed remainder. -/
def mAlts (l : List Char) : List (ℕ × List Char) :=
  (match l with
   | a :: b :: r => if a = '1' ∧ '0' ≤ b ∧ b ≤ '2' then [(10 + digVal b, r)] else []
   | _ => []) ++
  (match l with
   | a :: b :: r => if a = '0' ∧ '1' ≤ b ∧ b ≤ '9' then [(digVal b, r)] else []
   | _ => []) ++
  (match l with
   | a :: r => if '1' ≤ a ∧ a ≤ '9' then [(digVal a, r)] else []
   | _ => [])

/-- The `%d` field: regex alternatives `3[01] | [12][0-9] | 0[1-9] | [1-9]`,
in priority order. -/
def dAlts (l : List Char) : List (ℕ × List Char) :=
  (match l with
   | a :: b :: r => if a = '3' ∧ '0' ≤ b ∧ b ≤ '1' then [(30 + digVal b, r)] else []
   | _ => []) ++
  (match l with
   | a :: b :: r => if ('1' ≤ a ∧ a ≤ '2') ∧ b.isDigit then [(10 * digVal a + digVal b, r)] else []
   | _ => []) ++
  (match l with
   | a :: b :: r => if a = '0' ∧ '1' ≤ b ∧ b ≤ '9' then [(digVal b, r)] else []
   | _ => []) ++
  (match l with
   | a :: r => if '1' ≤ a ∧ a ≤ '9' then [(digVal a, r)] else []
   | _ => [])

/-- strptime with format `%Y%m%d`: four year digits, then the first
month/day alternative pair (in regex backtracking order) that consumes the
whole string. -/
def strptimeYmd (l : List Char) : Option (ℕ × ℕ × ℕ) :=
  match parseY l with
  | none => none
  | some (y, r1) =>
    match ((mAlts r1).map fun md =>
        (dAlts md.2).filterMap fun dd =>
          if dd.2.isEmpty then some (md.1, dd.1) else none).flatten with
    | [] => none
    | (m, d) :: _ => some (y, m, d)

/-- Gregorian leap year. -/
def isLeap (y : ℕ) : Bool := (y % 4 = 0 ∧ y % 100 ≠ 0) ∨ y % 400 = 0

/-- Days in a month of the proleptic Gregorian calendar. -/
def daysInMonth (y m : ℕ) : ℕ :=
  if m = 2 then (if isLeap y then 29 else 28)
  else if m = 4 ∨ m = 6 ∨ m = 9 ∨ m = 11 then 30
  else 31

/-- A date packed as `yyyymmdd` for range comparisons. -/
def dateKey (y m d : ℕ) : ℕ := y * 10000 + m * 100 + d

/-- Validation applied after the regex match: the day must exist in the
month (`datetime` raises `ValueError` otherwise) and the resulting midnight
timestamp must fit in pandas' `Timestamp` range, 1677-09-22 through
2262-04-11 (`OutOfBoundsDatetime` otherwise); either error lands in the
`except` branch. -/
def validTs (y m d : ℕ) : Bool :=
  1 ≤ m ∧ m ≤ 12 ∧ 1 ≤ d ∧ d ≤ daysInMonth y m ∧
    16770922 ≤ dateKey y m d ∧ dateKey y m d ≤ 22620411

/-- `pd.to_datetime(date_str, format="%Y%m%d")` (line 85) as a partial
date parse: `none` means the call raises and line 88 falls back to the raw
string. -/
def parseTxnDate (s : String) : Option (ℕ × ℕ × ℕ) :=
  match strptimeYmd s.data with
  | some (y, m, d) => if validTs y m d then some (y, m, d) else none
  | none => none

/-- English month names used by `strftime("%B")`. -/
def monthName (m : ℕ) : String :=
  ["January", "February", "March", "April", "May", "June", "July",
    "August", "September", "October", "November", "December"].getD (m - 1) ""

/-- Two-digit zero-padded day, `strftime("%d")`. -/
def pad2 (n : ℕ) : String := if n < 10 then "0" ++ natPlainStr n else natPlainStr n

/-- Lines 83-88: parse the raw date string and render
`strftime("%d %B %Y")`, falling back to the raw string verbatim when the
parse raises. -/
def renderDate (s : String) : String :=
  match parseTxnDate s with
  | some (y, m, d) => pad2 d ++ " " ++ monthName m ++ " " ++ natPlainStr y
  | none => s

/-- `build_description` (lines 75-89) on the stringified
`Transaction Type` and `Transaction Date` fields. -/
def build_description (ttype tdate : String) : String :=
  "Materai - " ++ labelOf ttype ++ " at " ++ renderDate tdate

/-! ### The Table Combiner (app.py lines 31-48) -/

/-- Realign a row recorded under `oldCols` to the column list `newCols`
(missing columns become NaN), as `pd.concat` does when schemas differ. -/
def realign (oldCols : List String) (row : List Cell) (newCols : List String) : List Cell :=
  newCols.map (getCellAt oldCols row)

/-- Column union in `pd.concat` order: the left table's columns, then the
right table's new columns in their own order. -/
def unionCols (a b : List String) : List String :=
  a ++ b.filter fun c => !(a.contains c)

/-- `pd.concat([a, b], ignore_index=True)`: concatenating with the empty
accumulator yields the other table; equal schemas append rows; differing
schemas take the column union and realign both sides' rows. -/
def concat2 (a b : Table) : Table :=
  if a.cols.isEmpty ∧ a.rows.isEmpty then b
  else if a.cols = b.cols then ⟨a.cols, a.rows ++ b.rows⟩
  else
    let cs := unionCols a.cols b.cols
    ⟨cs, (a.rows.map fun r => realign a.cols r cs) ++ b.rows.map fun r => realign b.cols r cs⟩

/-- `df[c] = values` (pandas column assignment): overwrite the column in
place when present, otherwise append it on the right. -/
def setColVals (t : Table) (c : String) (vs : List Cell) : Table :=
  match colIdx t.cols c with
  | some i => ⟨t.cols, (t.rows.zip vs).map fun p => p.1.set i p.2⟩
  | none => ⟨t.cols ++ [c], (t.rows.zip vs).map fun p => p.1 ++ [p.2]⟩

/-- `df[c] = v` with a single broadcast value. -/
def setColConst (t : Table) (c : String) (v : Cell) : Table :=
  setColVals t c (List.replicate t.rows.length v)

/-- Line 36: `df["source_file"] = file.name`. -/
def addSource (name : String) (t : Table) : Table :=
  setColConst t "source_file" (Cell.str name)

/-- The parse-and-concat loop (lines 31-39) over the uploaded files: each
file is a name plus its parse result (`none` when `pd.read_csv` raised and
the `except` branch reported the error and skipped the file). -/
def combineFiles (files : List (String × Option Table)) : Table :=
  files.foldl
    (fun acc f =>
      match f.2 with
      | some t => concat2 acc (addSource f.1 t)
      | none => acc)
    emptyTable

/-- The file names reported by `st.error` in the `except` branch (line 39). -/
def parseErrors (files : List (String × Option Table)) : List String :=
  files.filterMap fun f => match f.2 with | none => some f.1 | some _ => none

/-- `df.drop(columns=[c])` guarded by `c in df.columns` (lines 42-43,
46-47): remove the column named `c` when present. -/
def dropColName (t : Table) (c : String) : Table :=
  match colIdx t.cols c with
  | some i => ⟨t.cols.eraseIdx i, t.rows.map (·.eraseIdx i)⟩
  | none => t

/-- The combined table after the `source_file` drop (lines 42-43), i.e.
the data rows in concatenation order. -/
def combinedData (files : List (String × Option Table)) : Table :=
  dropColName (combineFiles files) "source_file"

/-- The data rows contributed by each file inside the concat loop, still
carrying the per-file `source_file` tag cell appended by line 36 (failed
files contribute nothing). -/
def taggedRows (files : List (String × Option Table)) : List (List Cell) :=
  (files.map fun f =>
    match f.2 with
    | some t => t.rows.map (· ++ [Cell.str f.1])
    | none => ([] : List (List Cell))).flatten

/-- Lines 45-48: drop any existing `No.` column and insert a fresh `No.`
column `1..N` at position 0. -/
def renumber (t : Table) : Table :=
  let t1 := dropColName t "No."
  ⟨"No." :: t1.cols,
    List.zipWith (fun (i : ℕ) r => Cell.num ((i : ℚ) + 1) :: r)
      (List.range t1.rows.length) t1.rows⟩

/-- The combined table after renumbering (end of line 48). -/
def combinedNumbered (files : List (String × Option Table)) : Table :=
  renumber (combinedData files)

/-- Total number of data rows across successfully parsed files. -/
def totalRows (files : List (String × Option Table)) : ℕ :=
  ((files.filterMap (·.2)).map fun t => t.rows.length).sum

/-- The values of the column named `c`, top to bottom. -/
def colValues (t : Table) (c : String) : List Cell :=
  t.rows.map fun r => getCellAt t.cols r c

/-! ### The Lookup Joiner (app.py lines 51-65) -/

/-- `lookup_df.drop_duplicates(subset="SID")` with the default
`keep="first"`: keep the first row for each identifier, in order; `seen`
accumulates identifiers already kept. -/
def dedupAux : List String → List (String × Cell) → List (String × Cell)
  | _, [] => []
  | seen, p :: rest =>
    if seen.contains p.1 then dedupAux seen rest
    else p :: dedupAux (p.1 :: seen) rest

/-- The deduplicated reference table (line 55). -/
def dropDupSID (ref : List (String × Cell)) : List (String × Cell) :=
  dedupAux [] ref

/-- The account the reference table maps an identifier to: the value of
its first occurrence, or null when the identifier is absent. -/
def firstAccount (ref : List (String × Cell)) (s : String) : Cell :=
  match ref.find? fun p => p.1 == s with
  | some p => p.2
  | none => Cell.null

/-- `df[c] = df[c].astype(str)` on one column. -/
def astypeStrCol (t : Table) (c : String) : Table :=
  match colIdx t.cols c with
  | some i => ⟨t.cols, t.rows.map fun r => r.set i (Cell.str (cellPyStr (r.getD i Cell.null)))⟩
  | none => t

/-- The stringified join key of a row (the `SID Number` cell after
`astype(str)`). -/
def sidKey (cols : List String) (row : List Cell) : String :=
  cellPyStr (getCellAt cols row "SID Number")

/-- Lines 55-65: dedup the reference table, stringify both key columns,
left-merge on `SID Number = SID` (`validate="many_to_one"` passes because
the right side was just deduplicated), and drop the right key column, so
each row gains exactly an `Account` cell (null when unmatched). When the
combined table has no `SID Number` column the lookup raises `KeyError`,
which the surrounding `except` reports, leaving the table unchanged. -/
def joinLookup (t : Table) (ref : List (String × Cell)) : Table :=
  if "SID Number" ∈ t.cols then
    let dd := dropDupSID ref
    let t1 := astypeStrCol t "SID Number"
    ⟨t1.cols ++ ["Account"],
      t1.rows.map fun r =>
        r ++ [match dd.find? fun p => p.1 == sidKey t1.cols r with
              | some p => p.2
              | none => Cell.null]⟩
  else t

/-- Lines 51-69: the join runs only when a lookup file was uploaded. -/
def applyLookup (t : Table) (ref : Option (List (String × Cell))) : Table :=
  match ref with
  | some l => joinLookup t l
  | none => t

/-! ### Derived column, normalization, display copy, export (lines 71-128) -/

/-- `r.set i (f r[i])` on every row of the column named `c`; the identity
when the column is absent. -/
def mapColName (t : Table) (c : String) (f : Cell → Cell) : Table :=
  match colIdx t.cols c with
  | some i => ⟨t.cols, t.rows.map fun r => r.set i (f (r.getD i Cell.null))⟩
  | none => t

/-- Lines 74-91: append the derived `Description` column when both source
columns are present, else pass the table through unchanged. -/
def addDescCol (t : Table) : Table :=
  if "Transaction Type" ∈ t.cols ∧ "Transaction Date" ∈ t.cols then
    setColVals t "Description"
      (t.rows.map fun r =>
        Cell.str (build_description
          (cellPyStr (getCellAt t.cols r "Transaction Type"))
          (cellPyStr (getCellAt t.cols r "Transaction Date"))))
  else t

/-- Lines 94-104: apply `clean_account` to the `Account` column when
present (string cells only; other values pass through untouched). -/
def cleanAccountCol (t : Table) : Table :=
  mapColName t "Account" fun v =>
    match v with
    | Cell.str s => Cell.str (clean_account s)
    | x => x

/-- The two monetary column names (line 117). -/
def moneyCols : List String := ["Stamp Duty Fee", "Gross Transaction Amount (IDR Equivalent)"]

/-- Lines 116-120: the display copy, with each present monetary column
coerced to numbers and rendered by `format_number`. -/
def displayTable (t : Table) : Table :=
  moneyCols.foldl (fun acc c => mapColName acc c fun v => Cell.str (displayCellStr v)) t

/-- The display/export branch (lines 116-128): the display copy is a
formatted copy, while `preview_df.to_excel` writes the table itself. -/
def displayExport (t : Table) : Table × Table := (displayTable t, t)

/-- Lines 42-104: everything applied to the combined table inside the
non-empty guard, up to the display/export branch. -/
def postProcess (t : Table) (ref : Option (List (String × Cell))) : Table :=
  cleanAccountCol (addDescCol (applyLookup (renumber (dropColName t "source_file")) ref))

/-- The whole pipeline for one button press (lines 30-128): combine the
parsed files; if the combined table is empty nothing further is produced
(`if not combined_df.empty`, line 41); otherwise the processed table is
built and both the display copy and the export table are emitted. -/
def runPipeline (files : List (String × Option Table))
    (ref : Option (List (String × Cell))) : Option (Table × Table) :=
  let c := combineFiles files
  if c.rows.isEmpty then none
  else
    let p := postProcess c ref
    some (displayExport p)

/-! ### Helper lemmas: zero runs, prefixes, and `replace6` -/

theorem leadZeros_cons (c : Char) (r : List Char) :
    leadZeros (c :: r) = if c = '0' then leadZeros r + 1 else 0 := rfl

theorem hasZ6_cons (c : Char) (r : List Char) :
    hasZ6 (c :: r) = (decide (6 ≤ leadZeros (c :: r)) || hasZ6 r) := rfl

theorem hasZ6_tail {c : Char} {r : List Char} (h : hasZ6 (c :: r) = false) :
    hasZ6 r = false := by
  rw [hasZ6_cons] at h
  exact (Bool.or_eq_false_iff.mp h).2

theorem hasZ6_lead {l : List Char} (h : hasZ6 l = false) : leadZeros l ≤ 5 := by
  cases l with
  | nil => simp [leadZeros]
  | cons c r =>
    rw [hasZ6_cons] at h
    have := (Bool.or_eq_false_iff.mp h).1
    simp only [decide_eq_false_iff_not, not_le] at this
    omega

theorem replace6_id {l : List Char} (h : hasZ6 l = false) : replace6 l = l := by
  induction l using replace6.induct with
  | case1 a b c d e f rest hz ih =>
    exfalso
    obtain ⟨ha, hb, hc, hd, he, hf⟩ := hz
    subst ha hb hc hd he hf
    have := hasZ6_lead h
    simp [leadZeros_cons] at this
  | case2 a b c d e f rest hz ih =>
    rw [replace6]
    rw [if_neg hz]
    rw [ih (hasZ6_tail h)]
  | case3 l hshort =>
    rcases l with _ | ⟨a, _ | ⟨b, _ | ⟨c, _ | ⟨d, _ | ⟨e, _ | ⟨f, rest⟩⟩⟩⟩⟩⟩
    · rfl
    · rfl
    · rfl
    · rfl
    · rfl
    · rfl
    · exact absurd rfl (hshort a b c d e f rest)

theorem pref_decomp {p l : List Char} (h : pref p l = true) :
    l = p ++ l.drop p.length := by
  induction p generalizing l with
  | nil => simp
  | cons x ps ih =>
    cases l with
    | nil => simp [pref] at h
    | cons c cs =>
      simp only [pref, Bool.and_eq_true, decide_eq_true_eq] at h
      obtain ⟨hx, hp⟩ := h
      subst hx
      simpa using ih hp

theorem pref_append (p t : List Char) : pref p (p ++ t) = true := by
  induction p with
  | nil => rfl
  | cons x ps ih => simp [pref, ih]

theorem pref_zzz_leadZeros {t : List Char} (h : pref ['0', '0', '0'] t = true) :
    3 ≤ leadZeros t := by
  have := pref_decomp h
  rw [this]
  simp [leadZeros_cons]

theorem cleanL_fix {u : List Char} (hz : hasZ6 u = false)
    (hr : pref ['R', '1', '0', '0', '0', '0'] u = false)
    (hs : pref ['S', '1', '0', '0', '0', '0'] u = false) : cleanL u = u := by
  simp only [cleanL, replace6_id hz, hr]
  simp only [Bool.false_eq_true, if_false, hs]

theorem hasZ6_x10000_decomp {x : Char} {t : List Char}
    (h : hasZ6 (x :: '1' :: '0' :: '0' :: '0' :: '0' :: t) = false) :
    hasZ6 t = false ∧ leadZeros t ≤ 1 := by
  have h1 := hasZ6_tail h
  have h2 := hasZ6_tail h1
  have h3 := hasZ6_tail h2
  have h4 := hasZ6_tail h3
  have h5 := hasZ6_tail h4
  have h6 := hasZ6_tail h5
  refine ⟨h6, ?_⟩
  have := hasZ6_lead h2
  simp [leadZeros_cons] at this
  omega

theorem hasZ6_x10t {x : Char} {t : List Char} (hx : x ≠ '0')
    (ht : hasZ6 t = false) (hlt : leadZeros t ≤ 1) :
    hasZ6 (x :: '1' :: '0' :: t) = false := by
  rw [hasZ6_cons, hasZ6_cons, hasZ6_cons, ht]
  simp only [leadZeros_cons, if_neg hx]
  have h1 : ('1' : Char) ≠ '0' := by decide
  simp only [if_neg h1, if_pos rfl]
  simp only [Bool.or_false]
  have : ¬ 6 ≤ leadZeros t + 1 := by omega
  simp [this, hx, h1]

theorem pref_R_cons_false {t : List Char} (hlt : leadZeros t ≤ 1) :
    pref ['R', '1', '0', '0', '0', '0'] ('R' :: '1' :: '0' :: t) = false := by
  cases hp : pref ['R', '1', '0', '0', '0', '0'] ('R' :: '1' :: '0' :: t) with
  | false => rfl
  | true =>
    exfalso
    simp only [pref, decide_eq_true_eq, Bool.and_eq_true, true_and] at hp
    have := pref_zzz_leadZeros (by simpa using hp)
    omega

theorem pref_S_cons_false {t : List Char} (hlt : leadZeros t ≤ 1) :
    pref ['S', '1', '0', '0', '0', '0'] ('S' :: '1' :: '0' :: t) = false := by
  cases hp : pref ['S', '1', '0', '0', '0', '0'] ('S' :: '1' :: '0' :: t) with
  | false => rfl
  | true =>
    exfalso
    simp only [pref, decide_eq_true_eq, Bool.and_eq_true, true_and] at hp
    have := pref_zzz_leadZeros (by simpa using hp)
    omega

theorem cleanL_R_shape (t : List Char)
    (hz : hasZ6 (['R', '1', '0', '0', '0', '0'] ++ t) = false) :
    cleanL (['R', '1', '0', '0', '0', '0'] ++ t) = 'R' :: '1' :: '0' :: t ∧
      cleanL ('R' :: '1' :: '0' :: t) = 'R' :: '1' :: '0' :: t := by
  simp only [List.cons_append, List.nil_append] at hz
  obtain ⟨ht, hlt⟩ := hasZ6_x10000_decomp hz
  have hz' : hasZ6 (['R', '1', '0', '0', '0', '0'] ++ t) = false := by
    simpa [List.cons_append, List.nil_append] using hz
  constructor
  · simp only [cleanL, replace6_id hz', pref_append, if_true]
    have hdrop : List.drop 6 (['R', '1', '0', '0', '0', '0'] ++ t) = t := rfl
    rw [hdrop]
    have hS : pref ['S', '1', '0', '0', '0', '0'] ('R' :: '1' :: '0' :: t) = false := rfl
    simp [hS]
  · exact cleanL_fix (hasZ6_x10t (by decide) ht hlt) (pref_R_cons_false hlt) rfl

theorem cleanL_S_shape (t : List Char)
    (hz : hasZ6 (['S', '1', '0', '0', '0', '0'] ++ t) = false) :
    cleanL (['S', '1', '0', '0', '0', '0'] ++ t) = 'S' :: '1' :: '0' :: t ∧
      cleanL ('S' :: '1' :: '0' :: t) = 'S' :: '1' :: '0' :: t := by
  simp only [List.cons_append, List.nil_append] at hz
  obtain ⟨ht, hlt⟩ := hasZ6_x10000_decomp hz
  have hz' : hasZ6 (['S', '1', '0', '0', '0', '0'] ++ t) = false := by
    simpa [List.cons_append, List.nil_append] using hz
  constructor
  · have hR : pref ['R', '1', '0', '0', '0', '0'] (['S', '1', '0', '0', '0', '0'] ++ t) = false := rfl
    simp only [cleanL, replace6_id hz', hR, Bool.false_eq_true, if_false, pref_append, if_true]
    rfl
  · exact cleanL_fix (hasZ6_x10t (by decide) ht hlt) rfl (pref_S_cons_false hlt)

theorem cleanL_idem {l : List Char} (h : hasZ6 l = false) :
    cleanL (cleanL l) = cleanL l := by
  cases hr : pref ['R', '1', '0', '0', '0', '0'] l with
  | true =>
    have hd := pref_decomp hr
    rw [hd] at h ⊢
    obtain ⟨h1, h2⟩ := cleanL_R_shape _ h
    rw [h1, h2]
  | false =>
    cases hs : pref ['S', '1', '0', '0', '0', '0'] l with
    | true =>
      have hd := pref_decomp hs
      rw [hd] at h hr ⊢
      obtain ⟨h1, h2⟩ := cleanL_S_shape _ h
      rw [h1, h2]
    | false =>
      rw [cleanL_fix h hr hs, cleanL_fix h hr hs]

/-! ### Claim C3: idempotence of the Identifier Normalizer -/

/-- C3, counterexample: the claim `normalize(normalize(x)) == normalize(x)`
for every string `x` fails at `x = "00000000"` (eight zeros): the first
pass rewrites the leading six zeros to four, yielding `"000000"`, and a
second pass rewrites again to `"0000"`. -/
theorem c3_counterexample :
    clean_account (clean_account "00000000") ≠ clean_account "00000000" ∧
      clean_account "00000000" = "000000" ∧
      clean_account (clean_account "00000000") = "0000" := by
  refine ⟨?_, by decide, by decide⟩
  decide

/-- C3 (amended): the per-value normalizer `clean_account` is idempotent on
every string whose runs of consecutive `'0'` characters are all shorter
than six (equivalently, on strings not containing `"000000"`); on such
strings the global replacement is the identity and a prefix rewrite cannot
re-create a rewritable prefix. It is not idempotent in general (see the
counterexample). -/
theorem c3_amended (s : String) (h : hasZ6 s.data = false) :
    clean_account (clean_account s) = clean_account s := by
  show (⟨cleanL (cleanL s.data)⟩ : String) = ⟨cleanL s.data⟩
  exact congrArg (fun l => (⟨l⟩ : String)) (cleanL_idem h)

/-- C3, witness: the amended theorem applied at `"R10000123"`, a string
with no six-zero run. -/
theorem c3_witness :
    hasZ6 "R10000123".data = false ∧
      clean_account (clean_account "R10000123") = clean_account "R10000123" :=
  ⟨by decide, c3_amended "R10000123" (by decide)⟩

/-! ### Claim C2: rendering of non-numeric monetary cells -/

/-- C2: the code does NOT render an unparsable monetary cell as the empty
string. `pd.to_numeric(..., errors="coerce")` (line 119) first coerces the
unparsable value to NaN; `float(nan)` then raises no exception inside
`format_number`, `nan.is_integer()` is `False`, and `f"{nan:,}"` prints
`"nan"`, so the cell displays `"nan"` and the `except` branch that would
return `""` (line 114) is never reached on the display path. -/
theorem c2_unparsable_renders_nan :
    displayCellStr (Cell.str "abc") = "nan" ∧
      toNumericCell (Cell.str "abc") = none ∧
      displayCellStr (Cell.str "abc") ≠ "" := by
  refine ⟨by decide, by decide, ?_⟩
  decide

/-! ### Helper lemmas: digit and grouping properties of the formatter -/

theorem group3_short {l : List Char}
    (h : ∀ (a b c d : Char) (rest : List Char), l ≠ a :: b :: c :: d :: rest) :
    group3 l = l := by
  rcases l with _ | ⟨a, _ | ⟨b, _ | ⟨c, _ | ⟨d, rest⟩⟩⟩⟩
  · rfl
  · rfl
  · rfl
  · rfl
  · exact absurd rfl (h a b c d rest)

theorem mem_group3 {x : Char} {l : List Char} (h : x ∈ group3 l) : x = ',' ∨ x ∈ l := by
  induction l using group3.induct with
  | case1 a b c d rest ih =>
    rw [group3] at h
    simp only [List.mem_cons] at h ⊢
    rcases h with h | h | h | h | h
    · exact Or.inr (Or.inl h)
    · exact Or.inr (Or.inr (Or.inl h))
    · exact Or.inr (Or.inr (Or.inr (Or.inl h)))
    · exact Or.inl h
    · rcases ih h with h' | h'
      · exact Or.inl h'
      · simp only [List.mem_cons] at h'
        rcases h' with h' | h'
        · exact Or.inr (Or.inr (Or.inr (Or.inr (Or.inl h'))))
        · exact Or.inr (Or.inr (Or.inr (Or.inr (Or.inr h'))))
  | case2 l hshort =>
    rw [group3_short hshort] at h
    exact Or.inr h

theorem filter_group3 {l : List Char} (h : ',' ∉ l) :
    (group3 l).filter (fun c => decide (c ≠ ',')) = l := by
  induction l using group3.induct with
  | case1 a b c d rest ih =>
    simp only [List.mem_cons, not_or] at h
    obtain ⟨ha, hb, hc, hrest⟩ := h
    rw [group3]
    have hd : ',' ∉ d :: rest := by
      simpa using hrest
    simp only [List.filter]
    rw [ih hd]
    simp [Ne.symm ha, Ne.symm hb, Ne.symm hc]
  | case2 l hshort =>
    rw [group3_short hshort]
    rw [List.filter_eq_self]
    intro a ha
    simp only [decide_eq_true_eq]
    intro hcomma
    exact h (hcomma ▸ ha)

theorem mem_natDigitsAux {c : Char} :
    ∀ {fuel n : ℕ}, c ∈ natDigitsAux fuel n → ∃ d, d < 10 ∧ c = digitChar d := by
  intro fuel
  induction fuel with
  | zero => intro n h; simp [natDigitsAux] at h
  | succ fuel ih =>
    intro n h
    rw [natDigitsAux] at h
    by_cases hn : n = 0
    · simp [hn] at h
    · rw [if_neg hn] at h
      rcases List.mem_append.mp h with h' | h'
      · exact ih h'
      · refine ⟨n % 10, Nat.mod_lt _ (by norm_num), ?_⟩
        simpa using h'

theorem mem_natDigits {c : Char} {n : ℕ} (h : c ∈ natDigits n) :
    ∃ d, d < 10 ∧ c = digitChar d := by
  rw [natDigits] at h
  by_cases hn : n = 0
  · refine ⟨0, by norm_num, ?_⟩
    rw [if_pos hn] at h
    simpa using h
  · exact mem_natDigitsAux (by rwa [if_neg hn] at h)

theorem digitChar_ne_comma_dot : ∀ d, d < 10 → digitChar d ≠ ',' ∧ digitChar d ≠ '.' := by
  decide

theorem comma_not_mem_natDigits {n : ℕ} : ',' ∉ natDigits n := by
  intro h
  obtain ⟨d, hd, hc⟩ := mem_natDigits h
  exact (digitChar_ne_comma_dot d hd).1 hc.symm

theorem dot_not_mem_commaNat {n : ℕ} : '.' ∉ (commaNat n).data := by
  intro h
  have h' : '.' ∈ group3 (natDigits n).reverse := by
    simpa [commaNat, List.mem_reverse] using h
  rcases mem_group3 h' with h'' | h''
  · exact absurd h'' (by decide)
  · obtain ⟨d, hd, hc⟩ := mem_natDigits (List.mem_reverse.mp h'')
    exact (digitChar_ne_comma_dot d hd).2 hc.symm

theorem filter_of_reverse (p : Char → Bool) (l : List Char) :
    l.reverse.filter p = (l.filter p).reverse := by
  induction l with
  | nil => rfl
  | cons a l ih =>
    simp only [List.reverse_cons, List.filter_append, ih, List.filter_cons]
    cases p a <;> simp

theorem filter_commaNat {n : ℕ} :
    (commaNat n).data.filter (fun c => decide (c ≠ ',')) = natDigits n := by
  have h : ',' ∉ (natDigits n).reverse := by
    rw [List.mem_reverse]
    exact comma_not_mem_natDigits
  show ((group3 (natDigits n).reverse).reverse).filter (fun c => decide (c ≠ ',')) = natDigits n
  rw [filter_of_reverse, filter_group3 h, List.reverse_reverse]

/-! ### Claim C1: the Presentation Formatter's number rendering -/

/-- C1, counterexample: the claim that a non-integral value renders with
exactly two decimal places fails at `1200000.5` (`mkRat 2400001 2`): line
112 formats with `f"{val:,}"`, which prints the shortest decimal digits,
so the output is `"1,200,000.5"`, not `"1,200,000.50"`. -/
theorem c1_counterexample :
    (mkRat 2400001 2) = (1200000.5 : ℚ) ∧
      format_number (some (mkRat 2400001 2)) = "1,200,000.5" ∧
      format_number (some (mkRat 2400001 2)) ≠ "1,200,000.50" := by
  refine ⟨?_, by decide, by decide⟩
  rw [Rat.mkRat_eq_div]
  norm_num

/-- C1 (amended): integral values do render as thousands-separated strings
with no decimal places — the rendered string contains no `'.'` and,
commas removed, is exactly the sign and decimal digits of the value.
Non-integral values render as thousands-separated strings carrying the
value's own shortest decimal digits, with no padding to two places (e.g.
`1200000.5` renders as `"1,200,000.5"` and `0.25` as `"0.25"`). -/
theorem c1_amended :
    (∀ q : ℚ, q.den = 1 →
        '.' ∉ (format_number (some q)).data ∧
          (format_number (some q)).data.filter (fun c => decide (c ≠ ',')) =
            (if q.num < 0 then ['-'] else []) ++ natDigits q.num.natAbs) ∧
      format_number (some (1200000 : ℚ)) = "1,200,000" ∧
      format_number (some (mkRat 2400001 2)) = "1,200,000.5" ∧
      format_number (some (mkRat 1 4)) = "0.25" := by
  refine ⟨?_, by decide, by decide, by decide⟩
  intro q hden
  have hfmt : format_number (some q) = intComma q.num := by
    simp [format_number, hden]
  constructor
  · rw [hfmt]
    unfold intComma
    intro hmem
    rw [String.data_append] at hmem
    rcases List.mem_append.mp hmem with h | h
    · by_cases hneg : q.num < 0
      · rw [if_pos hneg] at h
        simp at h
      · rw [if_neg hneg] at h
        simp at h
    · exact dot_not_mem_commaNat h
  · rw [hfmt]
    unfold intComma
    rw [String.data_append, List.filter_append, filter_commaNat]
    by_cases hneg : q.num < 0
    · rw [if_pos hneg, if_pos hneg]
      rfl
    · rw [if_neg hneg, if_neg hneg]
      rfl

/-- C1, witness: the amended theorem's integral clause applied at
`1200000`. -/
theorem c1_witness :
    (1200000 : ℚ).den = 1 ∧ '.' ∉ (format_number (some (1200000 : ℚ))).data :=
  ⟨by decide, (c1_amended.1 1200000 (by decide)).1⟩

/-! ### Claim C8: the Field Deriver's per-row rules -/

/-- C8: the transaction label is `"Subscr"` whenever the uppercased type
contains `SUBSCR`, `"Redemp"` whenever it does not but contains `REDEMP`,
and otherwise the first six characters of the raw string; the description
is always `"Materai - {label} at {rendered_date}"`; a date the strict
`%Y%m%d` parse rejects is rendered verbatim; and the spec's golden cases
evaluate as stated, including `"20240305" -> "05 March 2024"`. -/
theorem c8_field_deriver :
    (∀ t : String, strContains (pyUpper t).data "SUBSCR".data = true →
        labelOf t = "Subscr") ∧
      (∀ t : String, strContains (pyUpper t).data "SUBSCR".data = false →
        strContains (pyUpper t).data "REDEMP".data = true → labelOf t = "Redemp") ∧
      (∀ t : String, strContains (pyUpper t).data "SUBSCR".data = false →
        strContains (pyUpper t).data "REDEMP".data = false →
        labelOf t = ⟨t.data.take 6⟩) ∧
      (∀ t d : String,
        build_description t d = "Materai - " ++ labelOf t ++ " at " ++ renderDate d) ∧
      (∀ d : String, parseTxnDate d = none → renderDate d = d) ∧
      labelOf "SUBSCRIPTION" = "Subscr" ∧
      labelOf "REDEMPTION" = "Redemp" ∧
      labelOf "OTHERXYZ" = "OTHERX" ∧
      renderDate "20240305" = "05 March 2024" ∧
      parseTxnDate "ABCDEFGH" = none ∧
      build_description "OTHERXYZ" "20240305" = "Materai - OTHERX at 05 March 2024" ∧
      build_description "SUBSCRIPTION" "ABCDEFGH" = "Materai - Subscr at ABCDEFGH" := by
  refine ⟨?_, ?_, ?_, ?_, ?_, by decide, by decide, by decide, by decide, by decide,
    by decide, by decide⟩
  · intro t h
    simp [labelOf, h]
  · intro t h1 h2
    simp [labelOf, h1, h2]
  · intro t h1 h2
    simp [labelOf, h1, h2]
  · intro t d
    rfl
  · intro d h
    simp [renderDate, h]

/-- C8, witness: the classification clause applied at `"SUBSCRIPTION"`. -/
theorem c8_witness :
    strContains (pyUpper "SUBSCRIPTION").data "SUBSCR".data = true ∧
      labelOf "SUBSCRIPTION" = "Subscr" :=
  ⟨by decide, c8_field_deriver.1 "SUBSCRIPTION" (by decide)⟩

/-! ### Helper lemmas: the parse-and-concat fold -/

theorem combineFiles_filter_isSome (files : List (String × Option Table)) :
    combineFiles files = combineFiles (files.filter fun f => f.2.isSome) := by
  unfold combineFiles
  generalize emptyTable = acc
  induction files generalizing acc with
  | nil => rfl
  | cons f rest ih =>
    cases hf : f.2 with
    | none =>
      simp only [List.foldl_cons, List.filter_cons, hf, Option.isSome_none, ih]
      rfl
    | some t =>
      simp only [List.foldl_cons, List.filter_cons, hf, Option.isSome_some, if_true,
        List.foldl_cons, ih]

theorem combineFiles_all_none {files : List (String × Option Table)}
    (h : ∀ f ∈ files, f.2 = none) : combineFiles files = emptyTable := by
  unfold combineFiles
  induction files with
  | nil => rfl
  | cons f rest ih =>
    rw [List.foldl_cons]
    have hf : f.2 = none := h f (List.mem_cons_self f rest)
    rw [hf]
    exact ih fun g hg => h g (List.mem_cons_of_mem f hg)

/-! ### Claim C9: per-file isolation of parse errors -/

/-- C9: a file whose parse failed is reported (its name appears in the
error notices emitted by line 39) and has no effect on the combined
result: combining the batch equals combining just the successfully parsed
files, so one bad file never aborts the rest. -/
theorem c9_isolation (files : List (String × Option Table)) (name : String)
    (h : (name, (none : Option Table)) ∈ files) :
    name ∈ parseErrors files ∧
      combineFiles files = combineFiles (files.filter fun f => f.2.isSome) := by
  constructor
  · exact List.mem_filterMap.mpr ⟨(name, none), h, rfl⟩
  · exact combineFiles_filter_isSome files

/-- C9, witness: a failed file alongside a parsed one. -/
theorem c9_witness :
    ("bad.txt" ∈ parseErrors
      [("bad.txt", (none : Option Table)),
        ("good.txt", some (⟨["A"], [[Cell.num 1]]⟩ : Table))]) :=
  (c9_isolation
    [("bad.txt", (none : Option Table)),
      ("good.txt", some (⟨["A"], [[Cell.num 1]]⟩ : Table))]
    "bad.txt" (by decide)).1

/-! ### Claim C10: the empty-combined-table guard -/

/-- C10: when the combined table has no rows — in particular when every
file failed to parse — the guard at line 41 stops the pipeline: no
renumbering, join, description, display copy or export buffer is produced
(`runPipeline` yields `none`); conversely a non-empty combined table
always produces the display/export pair. -/
theorem c10_empty_guard (files : List (String × Option Table))
    (ref : Option (List (String × Cell))) :
    ((combineFiles files).rows = [] → runPipeline files ref = none) ∧
      ((∀ f ∈ files, f.2 = none) → runPipeline files ref = none) ∧
      ((combineFiles files).rows ≠ [] → (runPipeline files ref).isSome = true) := by
  refine ⟨?_, ?_, ?_⟩
  · intro h
    simp [runPipeline, h]
  · intro h
    simp [runPipeline, combineFiles_all_none h, emptyTable]
  · intro h
    simp [runPipeline, List.isEmpty_iff, h]

/-- C10, witness: a batch whose only file failed to parse produces no
output at all. -/
theorem c10_witness :
    (∀ f ∈ [("a.txt", (none : Option Table))], f.2 = (none : Option Table)) ∧
      runPipeline [("a.txt", (none : Option Table))] none = none :=
  ⟨by decide, (c10_empty_guard [("a.txt", (none : Option Table))] none).2.1 (by decide)⟩

/-! ### Helper lemmas: row counts through the combiner -/

theorem concat2_rows_length (a b : Table) :
    (concat2 a b).rows.length = a.rows.length + b.rows.length := by
  unfold concat2
  split
  · rename_i h
    have : a.rows.length = 0 := by
      rw [List.length_eq_zero]
      exact List.isEmpty_iff.mp h.2
    simp [this]
  · split
    · simp
    · simp

theorem setColVals_rows_length (t : Table) (c : String) (vs : List Cell)
    (h : vs.length = t.rows.length) : (setColVals t c vs).rows.length = t.rows.length := by
  unfold setColVals
  cases colIdx t.cols c <;> simp [List.length_zip, h]

theorem addSource_rows_length (name : String) (t : Table) :
    (addSource name t).rows.length = t.rows.length := by
  unfold addSource setColConst
  exact setColVals_rows_length t _ _ (List.length_replicate _ _)

theorem combineFiles_rows_length (files : List (String × Option Table)) :
    (combineFiles files).rows.length = totalRows files := by
  unfold combineFiles totalRows
  have key : ∀ (fs : List (String × Option Table)) (acc : Table),
      (fs.foldl (fun acc f =>
        match f.2 with
        | some t => concat2 acc (addSource f.1 t)
        | none => acc) acc).rows.length =
        acc.rows.length + ((fs.filterMap (·.2)).map fun t => t.rows.length).sum := by
    intro fs
    induction fs with
    | nil => simp
    | cons f rest ih =>
      intro acc
      cases hf : f.2 with
      | none => simp [List.foldl_cons, hf, ih, List.filterMap_cons]
      | some t =>
        simp only [List.foldl_cons, hf, List.filterMap_cons]
        rw [ih]
        rw [concat2_rows_length, addSource_rows_length]
        simp
        omega
  have := key files emptyTable
  simpa [emptyTable] using this

theorem dropColName_rows_length (t : Table) (c : String) :
    (dropColName t c).rows.length = t.rows.length := by
  unfold dropColName
  cases colIdx t.cols c <;> simp

theorem map_getD_zipWith :
    ∀ (il : List ℕ) (l : List (List Cell)), il.length = l.length →
      (List.zipWith (fun (i : ℕ) r => Cell.num ((i : ℚ) + 1) :: r) il l).map
          (fun r => r.getD 0 Cell.null) =
        il.map fun (i : ℕ) => Cell.num ((i : ℚ) + 1) := by
  intro il
  induction il with
  | nil => intro l h; simp
  | cons i il ih =>
    intro l h
    cases l with
    | nil => exact absurd h (by simp)
    | cons r l =>
      rw [List.zipWith_cons_cons, List.map_cons, List.map_cons, List.getD_cons_zero]
      rw [ih l (by simpa using h)]

theorem colValues_renumber (u : Table) :
    colValues (renumber u) "No." =
      (List.range (dropColName u "No.").rows.length).map fun (i : ℕ) => Cell.num ((i : ℚ) + 1) := by
  have hidx : colIdx ("No." :: (dropColName u "No.").cols) "No." = some 0 := by
    simp [colIdx]
  show (List.zipWith (fun (i : ℕ) r => Cell.num ((i : ℚ) + 1) :: r)
      (List.range (dropColName u "No.").rows.length) (dropColName u "No.").rows).map
      (fun r => getCellAt ("No." :: (dropColName u "No.").cols) r "No.") = _
  have hfun : (fun r => getCellAt ("No." :: (dropColName u "No.").cols) r "No.") =
      fun r : List Cell => r.getD 0 Cell.null := by
    funext r
    simp [getCellAt, hidx]
  rw [hfun]
  exact map_getD_zipWith _ _ (by simp)

/-! ### Claim C5: the `No.` column is always `1..N` -/

/-- C5: after the combine-and-renumber step (lines 45-48) the `No.` column
is exactly the sequence `1..N`, where `N` is the total number of rows of
the successfully parsed files; and any pre-existing `No.` column has no
influence: two tables that agree after dropping their `No.` column
renumber identically (the old column is discarded before the fresh one is
inserted). -/
theorem c5_no_column (files : List (String × Option Table)) :
    colValues (combinedNumbered files) "No." =
      (List.range (totalRows files)).map (fun (i : ℕ) => Cell.num ((i : ℚ) + 1)) ∧
      ∀ t1 t2 : Table, dropColName t1 "No." = dropColName t2 "No." →
        renumber t1 = renumber t2 := by
  constructor
  · unfold combinedNumbered
    rw [colValues_renumber]
    rw [dropColName_rows_length]
    unfold combinedData
    rw [dropColName_rows_length, combineFiles_rows_length]
  · intro t1 t2 h
    unfold renumber
    rw [h]

/-- C5, witness: the no-influence clause applied to two concrete tables
that differ only in their `No.` column. -/
theorem c5_witness :
    dropColName (⟨["No.", "A"], [[Cell.num 7, Cell.str "x"]]⟩ : Table) "No." =
        dropColName (⟨["No.", "A"], [[Cell.num 99, Cell.str "x"]]⟩ : Table) "No." ∧
      renumber (⟨["No.", "A"], [[Cell.num 7, Cell.str "x"]]⟩ : Table) =
        renumber (⟨["No.", "A"], [[Cell.num 99, Cell.str "x"]]⟩ : Table) :=
  ⟨by decide, (c5_no_column []).2 _ _ (by decide)⟩

/-! ### Helper lemmas: the combiner under a uniform schema -/

theorem colIdx_eq_none {l : List String} {c : String} (h : c ∉ l) : colIdx l c = none := by
  induction l with
  | nil => rfl
  | cons a l ih =>
    simp only [List.mem_cons, not_or] at h
    have hac : ¬ a = c := fun hac => h.1 hac.symm
    simp [colIdx, hac, ih h.2]

theorem colIdx_append_self {l : List String} {c : String} (h : c ∉ l) :
    colIdx (l ++ [c]) c = some l.length := by
  induction l with
  | nil => simp [colIdx]
  | cons a l ih =>
    simp only [List.mem_cons, not_or] at h
    have hac : ¬ a = c := fun hac => h.1 hac.symm
    simp [colIdx, hac, ih h.2]

theorem eraseIdx_append_last : ∀ (r : List Cell) (v : Cell), (r ++ [v]).eraseIdx r.length = r := by
  intro r
  induction r with
  | nil => intro v; rfl
  | cons a r ih =>
    intro v
    simp only [List.cons_append, List.length_cons, List.eraseIdx_cons_succ]
    rw [ih]

theorem zip_replicate_map (l : List (List Cell)) (v : Cell) :
    ((l.zip (List.replicate l.length v)).map fun p => p.1 ++ [p.2]) = l.map (· ++ [v]) := by
  induction l with
  | nil => rfl
  | cons r l ih =>
    simp only [List.length_cons, List.replicate_succ, List.zip_cons_cons, List.map_cons, ih]

theorem addSource_spec {t : Table} {C : List String} (name : String)
    (ht : t.cols = C) (hsf : "source_file" ∉ C) :
    addSource name t = ⟨C ++ ["source_file"], t.rows.map (· ++ [Cell.str name])⟩ := by
  unfold addSource setColConst setColVals
  rw [ht, colIdx_eq_none hsf]
  rw [zip_replicate_map]

theorem concat2_empty_left (b : Table) : concat2 emptyTable b = b := by
  unfold concat2
  rw [if_pos]
  exact ⟨rfl, rfl⟩

theorem concat2_same_cols {a b : Table} (hne : a.cols ≠ []) (h : a.cols = b.cols) :
    concat2 a b = ⟨a.cols, a.rows ++ b.rows⟩ := by
  unfold concat2
  rw [if_neg, if_pos h]
  intro hc
  exact hne (List.isEmpty_iff.mp hc.1)

theorem combine_fold_spec (C : List String) (hsf : "source_file" ∉ C) :
    ∀ (files : List (String × Option Table)) (acc : Table),
      (∀ p ∈ files, ∀ t, p.2 = some t → t.cols = C) →
      (acc = emptyTable ∨ acc.cols = C ++ ["source_file"]) →
      (files.foldl (fun acc f =>
          match f.2 with
          | some t => concat2 acc (addSource f.1 t)
          | none => acc) acc).rows = acc.rows ++ taggedRows files ∧
        ((files.foldl (fun acc f =>
          match f.2 with
          | some t => concat2 acc (addSource f.1 t)
          | none => acc) acc) = emptyTable ∨
          (files.foldl (fun acc f =>
          match f.2 with
          | some t => concat2 acc (addSource f.1 t)
          | none => acc) acc).cols = C ++ ["source_file"]) := by
  intro files
  induction files with
  | nil =>
    intro acc hC hacc
    simp [taggedRows, hacc]
  | cons f rest ih =>
    intro acc hC hacc
    have hCrest : ∀ p ∈ rest, ∀ t, p.2 = some t → t.cols = C :=
      fun p hp t hpt => hC p (List.mem_cons_of_mem f hp) t hpt
    cases hf : f.2 with
    | none =>
      have htag : taggedRows (f :: rest) = taggedRows rest := by
        simp [taggedRows, hf]
      rw [List.foldl_cons]
      simp only [hf]
      rw [htag]
      exact ih acc hCrest hacc
    | some t =>
      have htC : t.cols = C := hC f (List.mem_cons_self f rest) t hf
      have hb := addSource_spec f.1 htC hsf
      have htag : taggedRows (f :: rest) =
          (t.rows.map (· ++ [Cell.str f.1])) ++ taggedRows rest := by
        simp [taggedRows, hf]
      rw [List.foldl_cons]
      simp only [hf]
      rcases hacc with hacc | hacc
      · rw [hacc, concat2_empty_left, hb]
        have := ih ⟨C ++ ["source_file"], t.rows.map (· ++ [Cell.str f.1])⟩ hCrest (Or.inr rfl)
        rw [htag]
        constructor
        · rw [this.1]
          rfl
        · exact this.2
      · have hbne : acc.cols ≠ [] := by
          rw [hacc]
          simp
        have hcc : concat2 acc (addSource f.1 t) =
            ⟨acc.cols, acc.rows ++ t.rows.map (· ++ [Cell.str f.1])⟩ := by
          rw [hb]
          exact concat2_same_cols hbne (by rw [hacc])
        rw [hcc]
        have := ih ⟨acc.cols, acc.rows ++ t.rows.map (· ++ [Cell.str f.1])⟩ hCrest
          (Or.inr hacc)
        rw [htag]
        constructor
        · rw [this.1]
          simp
        · exact this.2

theorem taggedRows_cons (f : String × Option Table) (files : List (String × Option Table)) :
    taggedRows (f :: files) =
      (match f.2 with
        | some t => t.rows.map (· ++ [Cell.str f.1])
        | none => ([] : List (List Cell))) ++ taggedRows files := by
  simp [taggedRows]

theorem untag_nil :
    ∀ (files : List (String × Option Table)), taggedRows files = [] →
      ((files.filterMap (·.2)).map Table.rows).flatten = [] := by
  intro files
  induction files with
  | nil => intro h; rfl
  | cons f rest ih =>
    intro h
    rw [taggedRows_cons] at h
    cases hf : f.2 with
    | none =>
      rw [hf] at h
      simp only [List.nil_append] at h
      simpa [List.filterMap_cons, hf] using ih h
    | some t =>
      rw [hf] at h
      rcases List.append_eq_nil.mp h with ⟨h1, h2⟩
      have ht : t.rows = [] := List.map_eq_nil_iff.mp h1
      simp [List.filterMap_cons, hf, ht, ih h2]

theorem map_erase_tag (n : ℕ) (v : Cell) :
    ∀ (rows : List (List Cell)), (∀ r ∈ rows, r.length = n) →
      (rows.map fun r => (r ++ [v]).eraseIdx n) = rows := by
  intro rows
  induction rows with
  | nil => intro _; rfl
  | cons r rows ih =>
    intro h
    have hr : r.length = n := h r (List.mem_cons_self r rows)
    rw [List.map_cons]
    congr 1
    · rw [← hr]
      exact eraseIdx_append_last r v
    · exact ih fun s hs => h s (List.mem_cons_of_mem r hs)

theorem untag_tagged (C : List String) :
    ∀ (files : List (String × Option Table)),
      (∀ t ∈ files.filterMap (·.2), ∀ r ∈ t.rows, r.length = C.length) →
      ((taggedRows files).map fun r => r.eraseIdx C.length) =
        ((files.filterMap (·.2)).map Table.rows).flatten := by
  intro files
  induction files with
  | nil => intro _; rfl
  | cons f rest ih =>
    intro h
    rw [taggedRows_cons]
    cases hf : f.2 with
    | none =>
      simp only [List.nil_append, List.filterMap_cons, hf]
      exact ih fun t ht => h t (by simpa [List.filterMap_cons, hf] using ht)
    | some t =>
      have hrect : ∀ r ∈ t.rows, r.length = C.length :=
        h t (List.mem_filterMap.mpr ⟨f, List.mem_cons_self f rest, hf⟩)
      rw [List.map_append, List.map_map]
      have : ((fun r : List Cell => r.eraseIdx C.length) ∘ fun r => r ++ [Cell.str f.1]) =
          fun r => (r ++ [Cell.str f.1]).eraseIdx C.length := rfl
      rw [this, map_erase_tag C.length (Cell.str f.1) t.rows hrect]
      simp only [List.filterMap_cons, hf, List.map_cons, List.flatten_cons]
      rw [ih fun u hu => h u (by simp [List.filterMap_cons, hf, hu])]

/-! ### Claim C6: combining preserves order -/

/-- C6: whenever the parsed files share one header `C` (which does not
contain the transient `source_file` name) and have well-formed rows, the
combined table's data rows (after the `source_file` drop, i.e. the table
the rest of the pipeline consumes) are exactly the concatenation of the
input tables' rows, in file-upload order and within each file in that
file's row order. -/
theorem c6_concat_order (files : List (String × Option Table)) (C : List String)
    (hsf : "source_file" ∉ C)
    (hcols : ∀ t ∈ files.filterMap (·.2), t.cols = C)
    (hrect : ∀ t ∈ files.filterMap (·.2), ∀ r ∈ t.rows, r.length = C.length) :
    (combinedData files).rows = ((files.filterMap (·.2)).map Table.rows).flatten := by
  have hcols' : ∀ p ∈ files, ∀ t : Table, p.2 = some t → t.cols = C :=
    fun p hp t hpt => hcols t (List.mem_filterMap.mpr ⟨p, hp, hpt⟩)
  have hspec := combine_fold_spec C hsf files emptyTable hcols' (Or.inl rfl)
  have hrows : (combineFiles files).rows = taggedRows files := by
    have := hspec.1
    simpa [combineFiles, emptyTable] using this
  unfold combinedData dropColName
  rcases hspec.2 with hempty | hcolsEq
  · have hce : (combineFiles files) = emptyTable := by
      simpa [combineFiles] using hempty
    rw [hce]
    show emptyTable.rows = _
    rw [untag_nil files (by rw [← hrows, hce]; rfl)]
    rfl
  · have hc : (combineFiles files).cols = C ++ ["source_file"] := by
      simpa [combineFiles] using hcolsEq
    rw [hc, colIdx_append_self hsf]
    show ((combineFiles files).rows.map fun r => r.eraseIdx C.length) = _
    rw [hrows, untag_tagged C files hrect]

/-- C6, witness: two files with three and two rows combine to the five
rows in order. -/
theorem c6_witness :
    ("source_file" ∉ (["X"] : List String)) ∧
      (combinedData
        [("a.txt", some (⟨["X"], [[Cell.num 1], [Cell.num 2], [Cell.num 3]]⟩ : Table)),
          ("b.txt", some (⟨["X"], [[Cell.num 4], [Cell.num 5]]⟩ : Table))]).rows =
        [[Cell.num 1], [Cell.num 2], [Cell.num 3], [Cell.num 4], [Cell.num 5]] := by
  constructor
  · decide
  · rw [c6_concat_order
      [("a.txt", some (⟨["X"], [[Cell.num 1], [Cell.num 2], [Cell.num 3]]⟩ : Table)),
        ("b.txt", some (⟨["X"], [[Cell.num 4], [Cell.num 5]]⟩ : Table))]
      ["X"] (by decide) (by decide) (by decide)]
    decide

/-! ### Helper lemmas: list access and the deduplicated lookup -/

theorem getD_set_self_cell :
    ∀ (l : List Cell) (i : ℕ) (v d : Cell), i < l.length → (l.set i v).getD i d = v := by
  intro l
  induction l with
  | nil => intro i v d h; simp at h
  | cons a l ih =>
    intro i v d h
    cases i with
    | zero => rfl
    | succ i =>
      simp only [List.set_cons_succ, List.getD_cons_succ]
      exact ih i v d (by simpa using h)

theorem set_of_le_cell :
    ∀ (l : List Cell) (i : ℕ) (v : Cell), l.length ≤ i → l.set i v = l := by
  intro l
  induction l with
  | nil => intro i v _; simp
  | cons a l ih =>
    intro i v h
    cases i with
    | zero => simp at h
    | succ i =>
      simp only [List.set_cons_succ]
      rw [ih i v (by simpa using h)]

theorem getD_append_last : ∀ (l : List Cell) (a d : Cell), (l ++ [a]).getD l.length d = a := by
  intro l
  induction l with
  | nil => intro a d; rfl
  | cons x l ih =>
    intro a d
    simp only [List.cons_append, List.length_cons, List.getD_cons_succ]
    exact ih a d

theorem getD_map_rows (f : List Cell → List Cell) :
    ∀ (l : List (List Cell)) (i : ℕ), i < l.length → (l.map f).getD i [] = f (l.getD i []) := by
  intro l
  induction l with
  | nil => intro i h; simp at h
  | cons r l ih =>
    intro i h
    cases i with
    | zero => rfl
    | succ i =>
      simp only [List.map_cons, List.getD_cons_succ]
      exact ih i (by simpa using h)

theorem colIdx_mem :
    ∀ (l : List String) (c : String), c ∈ l → ∃ j, colIdx l c = some j := by
  intro l
  induction l with
  | nil => intro c h; simp at h
  | cons a l ih =>
    intro c h
    by_cases hac : a = c
    · exact ⟨0, by simp [colIdx, hac]⟩
    · have hc : c ∈ l := by
        rcases List.mem_cons.mp h with h' | h'
        · exact absurd h'.symm hac
        · exact h'
      obtain ⟨j, hj⟩ := ih c hc
      exact ⟨j + 1, by simp [colIdx, hac, hj]⟩

theorem dedup_find :
    ∀ (ref : List (String × Cell)) (seen : List String) (s : String),
      seen.contains s = false →
      (dedupAux seen ref).find? (fun p => p.1 == s) = ref.find? (fun p => p.1 == s) := by
  intro ref
  induction ref with
  | nil => intro seen s _; rfl
  | cons p rest ih =>
    intro seen s hs
    by_cases hk : seen.contains p.1
    · rw [dedupAux, if_pos hk]
      have hne : (p.1 == s) = false := by
        rw [beq_eq_false_iff_ne]
        intro he
        rw [he] at hk
        rw [hs] at hk
        exact Bool.false_ne_true hk
      simp only [List.find?_cons, hne]
      exact ih seen s hs
    · rw [dedupAux, if_neg hk]
      by_cases hps : p.1 = s
      · have hpos : (p.1 == s) = true := beq_iff_eq.mpr hps
        simp only [List.find?_cons, hpos]
      · have hneg : (p.1 == s) = false := beq_eq_false_iff_ne.mpr hps
        simp only [List.find?_cons, hneg]
        have hs' : (p.1 :: seen).contains s = false := by
          simp only [List.contains_cons, Bool.or_eq_false_iff]
          refine ⟨?_, hs⟩
          rw [beq_eq_false_iff_ne]
          exact fun he => hps he.symm
        exact ih (p.1 :: seen) s hs'

theorem getD_mem_rows : ∀ (l : List (List Cell)) (i : ℕ), i < l.length → l.getD i [] ∈ l := by
  intro l
  induction l with
  | nil => intro i h; simp at h
  | cons r l ih =>
    intro i h
    cases i with
    | zero => exact List.mem_cons_self r l
    | succ i => exact List.mem_cons_of_mem r (ih i (by simpa using h))

/-! ### Claim C7: the Lookup Joiner -/

/-- C7: the lookup merge is a row-count-preserving left join: given a
combined table with a `SID Number` column (and no pre-existing `Account`
column), each row of the joined table carries in `Account` the account of
the FIRST occurrence of its identifier in the reference table (duplicates
dropped by `drop_duplicates(keep="first")` before the join have no
effect), and `Cell.null` (NaN) when the identifier does not occur — the
row itself is never dropped. -/
theorem c7_lookup (t : Table) (ref : List (String × Cell))
    (hS : "SID Number" ∈ t.cols) (hA : "Account" ∉ t.cols)
    (hrect : ∀ r ∈ t.rows, r.length = t.cols.length) :
    (joinLookup t ref).rows.length = t.rows.length ∧
      ∀ i, i < t.rows.length →
        getCellAt (joinLookup t ref).cols ((joinLookup t ref).rows.getD i []) "Account" =
          firstAccount ref (sidKey t.cols (t.rows.getD i [])) := by
  obtain ⟨j, hj⟩ := colIdx_mem t.cols "SID Number" hS
  have ht1 : astypeStrCol t "SID Number" =
      ⟨t.cols, t.rows.map fun r => r.set j (Cell.str (cellPyStr (r.getD j Cell.null)))⟩ := by
    simp only [astypeStrCol, hj]
  have hjoin : joinLookup t ref =
      ⟨t.cols ++ ["Account"],
        t.rows.map fun r =>
          (r.set j (Cell.str (cellPyStr (r.getD j Cell.null)))) ++
            [match (dropDupSID ref).find? (fun p =>
                p.1 == sidKey t.cols (r.set j (Cell.str (cellPyStr (r.getD j Cell.null))))) with
              | some p => p.2
              | none => Cell.null]⟩ := by
    unfold joinLookup
    rw [if_pos hS, ht1]
    simp [List.map_map]
  have hsid : ∀ r : List Cell,
      sidKey t.cols (r.set j (Cell.str (cellPyStr (r.getD j Cell.null)))) =
        sidKey t.cols r := by
    intro r
    unfold sidKey getCellAt
    rw [hj]
    show cellPyStr ((r.set j (Cell.str (cellPyStr (r.getD j Cell.null)))).getD j Cell.null) =
      cellPyStr (r.getD j Cell.null)
    by_cases hjr : j < r.length
    · rw [getD_set_self_cell r j _ Cell.null hjr]
      rfl
    · rw [set_of_le_cell r j _ (Nat.le_of_not_lt hjr)]
  constructor
  · rw [hjoin]
    simp
  · intro i hi
    rw [hjoin]
    show getCellAt (t.cols ++ ["Account"]) _ "Account" = _
    rw [getD_map_rows _ t.rows i hi]
    have hr : t.rows.getD i [] ∈ t.rows := getD_mem_rows t.rows i hi
    have hlen : ((t.rows.getD i []).set j
        (Cell.str (cellPyStr ((t.rows.getD i []).getD j Cell.null)))).length = t.cols.length := by
      rw [List.length_set]
      exact hrect _ hr
    unfold getCellAt
    rw [colIdx_append_self hA]
    show List.getD (_ ++ [_]) t.cols.length Cell.null = _
    rw [← hlen, getD_append_last]
    rw [hsid]
    unfold dropDupSID at *
    rw [dedup_find ref [] _ rfl]
    rfl

/-- C7, witness: a reference table mapping the duplicate identifier `S1`
to two accounts joined against rows with identifiers `S1` and `S9`: both
rows survive, `S1` gets the first-seen account, `S9` gets null. -/
theorem c7_witness :
    (joinLookup (⟨["SID Number"], [[Cell.str "S1"], [Cell.str "S9"]]⟩ : Table)
        [("S1", Cell.str "ACC1"), ("S1", Cell.str "ACC2")]).rows.length = 2 ∧
      getCellAt
        (joinLookup (⟨["SID Number"], [[Cell.str "S1"], [Cell.str "S9"]]⟩ : Table)
          [("S1", Cell.str "ACC1"), ("S1", Cell.str "ACC2")]).cols
        ((joinLookup (⟨["SID Number"], [[Cell.str "S1"], [Cell.str "S9"]]⟩ : Table)
          [("S1", Cell.str "ACC1"), ("S1", Cell.str "ACC2")]).rows.getD 0 []) "Account" =
        Cell.str "ACC1" ∧
      getCellAt
        (joinLookup (⟨["SID Number"], [[Cell.str "S1"], [Cell.str "S9"]]⟩ : Table)
          [("S1", Cell.str "ACC1"), ("S1", Cell.str "ACC2")]).cols
        ((joinLookup (⟨["SID Number"], [[Cell.str "S1"], [Cell.str "S9"]]⟩ : Table)
          [("S1", Cell.str "ACC1"), ("S1", Cell.str "ACC2")]).rows.getD 1 []) "Account" =
        Cell.null := by
  refine ⟨?_, ?_, ?_⟩
  · rw [(c7_lookup (⟨["SID Number"], [[Cell.str "S1"], [Cell.str "S9"]]⟩ : Table)
      [("S1", Cell.str "ACC1"), ("S1", Cell.str "ACC2")]
      (by decide) (by decide) (by decide)).1]
    decide
  · rw [(c7_lookup (⟨["SID Number"], [[Cell.str "S1"], [Cell.str "S9"]]⟩ : Table)
      [("S1", Cell.str "ACC1"), ("S1", Cell.str "ACC2")]
      (by decide) (by decide) (by decide)).2 0 (by decide)]
    decide
  · rw [(c7_lookup (⟨["SID Number"], [[Cell.str "S1"], [Cell.str "S9"]]⟩ : Table)
      [("S1", Cell.str "ACC1"), ("S1", Cell.str "ACC2")]
      (by decide) (by decide) (by decide)).2 1 (by decide)]
    decide

/-! ### Helper lemmas: the display formatting passes -/

theorem colIdx_getD {l : List String} {c : String} :
    ∀ {j : ℕ}, colIdx l c = some j → l.getD j "" = c := by
  induction l with
  | nil => intro j h; simp [colIdx] at h
  | cons a l ih =>
    intro j h
    by_cases hac : a = c
    · simp only [colIdx, if_pos hac] at h
      cases h
      exact hac
    · simp only [colIdx, if_neg hac] at h
      rcases Option.map_eq_some'.mp h with ⟨j', hj', rfl⟩
      simpa using ih hj'

theorem colIdx_lt {l : List String} {c : String} :
    ∀ {j : ℕ}, colIdx l c = some j → j < l.length := by
  induction l with
  | nil => intro j h; simp [colIdx] at h
  | cons a l ih =>
    intro j h
    by_cases hac : a = c
    · simp only [colIdx, if_pos hac] at h
      cases h
      simp
    · simp only [colIdx, if_neg hac] at h
      rcases Option.map_eq_some'.mp h with ⟨j', hj', rfl⟩
      have := ih hj'
      simp only [List.length_cons]
      omega

theorem getD_set_ne_cell :
    ∀ (l : List Cell) (i i' : ℕ) (v d : Cell), i ≠ i' →
      (l.set i v).getD i' d = l.getD i' d := by
  intro l
  induction l with
  | nil => intro i i' v d _; simp
  | cons a l ih =>
    intro i i' v d h
    cases i with
    | zero =>
      cases i' with
      | zero => exact absurd rfl h
      | succ i' => rfl
    | succ i =>
      cases i' with
      | zero => rfl
      | succ i' =>
        simp only [List.set_cons_succ, List.getD_cons_succ]
        exact ih i i' v d (fun he => h (he ▸ rfl))

theorem mapColName_cols (t : Table) (c : String) (f : Cell → Cell) :
    (mapColName t c f).cols = t.cols := by
  unfold mapColName
  cases colIdx t.cols c <;> rfl

theorem mapColName_rows_length (t : Table) (c : String) (f : Cell → Cell) :
    (mapColName t c f).rows.length = t.rows.length := by
  unfold mapColName
  cases colIdx t.cols c <;> simp

theorem mapColName_rect (t : Table) (c : String) (f : Cell → Cell)
    (hrect : ∀ r ∈ t.rows, r.length = t.cols.length) :
    ∀ r ∈ (mapColName t c f).rows, r.length = (mapColName t c f).cols.length := by
  rw [mapColName_cols]
  unfold mapColName
  cases colIdx t.cols c with
  | none => exact hrect
  | some j =>
    intro r hr
    rcases List.mem_map.mp hr with ⟨r0, hr0, rfl⟩
    rw [List.length_set]
    exact hrect r0 hr0

theorem getCell_mapColName_self (t : Table) (c : String) (f : Cell → Cell)
    (hmem : c ∈ t.cols) (hrect : ∀ r ∈ t.rows, r.length = t.cols.length)
    (i : ℕ) (hi : i < t.rows.length) :
    getCellAt (mapColName t c f).cols ((mapColName t c f).rows.getD i []) c =
      f (getCellAt t.cols (t.rows.getD i []) c) := by
  obtain ⟨j, hj⟩ := colIdx_mem t.cols c hmem
  have hjl : j < t.cols.length := colIdx_lt hj
  unfold mapColName
  rw [hj]
  show getCellAt t.cols _ c = _
  unfold getCellAt
  rw [hj]
  rw [getD_map_rows _ t.rows i hi]
  have hlen : j < (t.rows.getD i []).length := by
    rw [hrect _ (getD_mem_rows t.rows i hi)]
    exact hjl
  show ((t.rows.getD i []).set j (f ((t.rows.getD i []).getD j Cell.null))).getD j Cell.null =
    f ((t.rows.getD i []).getD j Cell.null)
  rw [getD_set_self_cell _ j _ Cell.null hlen]

theorem getCell_mapColName_other (t : Table) (c' c : String) (f : Cell → Cell)
    (hne : c' ≠ c) (i : ℕ) (hi : i < t.rows.length) :
    getCellAt (mapColName t c' f).cols ((mapColName t c' f).rows.getD i []) c =
      getCellAt t.cols (t.rows.getD i []) c := by
  unfold mapColName
  cases hidx' : colIdx t.cols c' with
  | none => rfl
  | some j' =>
    show getCellAt t.cols _ c = _
    unfold getCellAt
    cases hidx : colIdx t.cols c with
    | none => rfl
    | some j =>
      have hjj : j' ≠ j := by
        intro he
        exact hne (by rw [← colIdx_getD hidx', ← colIdx_getD hidx, he])
      rw [getD_map_rows _ t.rows i hi]
      show ((t.rows.getD i []).set j'
          (f ((t.rows.getD i []).getD j' Cell.null))).getD j Cell.null =
        (t.rows.getD i []).getD j Cell.null
      rw [getD_set_ne_cell _ j' j _ Cell.null hjj]

/-! ### Claim C4: display copy vs export table -/

/-- C4: the Presentation Formatter never mutates the export table — the
export component of the display/export branch is the processed table
itself, unchanged (`display_df` is a `.copy()`, only the copy's monetary
columns are reassigned); every monetary cell of the display copy is a
string, namely the formatted rendering of the pre-formatting cell; and a
numeric export cell re-parses to exactly the original rational value
(round-trip fidelity). -/
theorem c4_display_export (t : Table) (c : String) (hc : c ∈ moneyCols)
    (hmem : c ∈ t.cols) (hrect : ∀ r ∈ t.rows, r.length = t.cols.length) :
    (displayExport t).2 = t ∧
      (∀ i, i < t.rows.length →
        getCellAt (displayExport t).1.cols ((displayExport t).1.rows.getD i []) c =
          Cell.str (displayCellStr (getCellAt t.cols (t.rows.getD i []) c))) ∧
      (∀ q : ℚ, toNumericCell (Cell.num q) = some q) := by
  refine ⟨rfl, ?_, fun q => rfl⟩
  intro i hi
  have hdt : (displayExport t).1 = mapColName
      (mapColName t "Stamp Duty Fee" fun v => Cell.str (displayCellStr v))
      "Gross Transaction Amount (IDR Equivalent)" fun v => Cell.str (displayCellStr v) := rfl
  rw [hdt]
  simp only [moneyCols, List.mem_cons, List.not_mem_nil, or_false] at hc
  rcases hc with hc | hc
  · subst hc
    have h1 := getCell_mapColName_other
      (mapColName t "Stamp Duty Fee" fun v => Cell.str (displayCellStr v))
      "Gross Transaction Amount (IDR Equivalent)" "Stamp Duty Fee"
      (fun v => Cell.str (displayCellStr v)) (by decide) i
      (by rw [mapColName_rows_length]; exact hi)
    rw [h1]
    exact getCell_mapColName_self t "Stamp Duty Fee"
      (fun v => Cell.str (displayCellStr v)) hmem hrect i hi
  · subst hc
    have hmem' : "Gross Transaction Amount (IDR Equivalent)" ∈
        (mapColName t "Stamp Duty Fee" fun v => Cell.str (displayCellStr v)).cols := by
      rw [mapColName_cols]
      exact hmem
    have h1 := getCell_mapColName_self
      (mapColName t "Stamp Duty Fee" fun v => Cell.str (displayCellStr v))
      "Gross Transaction Amount (IDR Equivalent)"
      (fun v => Cell.str (displayCellStr v)) hmem'
      (mapColName_rect t "Stamp Duty Fee" _ hrect) i
      (by rw [mapColName_rows_length]; exact hi)
    rw [h1]
    have h2 := getCell_mapColName_other t "Stamp Duty Fee"
      "Gross Transaction Amount (IDR Equivalent)"
      (fun v => Cell.str (displayCellStr v)) (by decide) i hi
    rw [h2]

/-- C4, witness: a one-cell monetary table — the export side is untouched
and the display cell is the formatted string. -/
theorem c4_witness :
    ("Stamp Duty Fee" ∈ moneyCols) ∧
      (displayExport (⟨["Stamp Duty Fee"], [[Cell.num 1200000]]⟩ : Table)).2 =
        (⟨["Stamp Duty Fee"], [[Cell.num 1200000]]⟩ : Table) ∧
      getCellAt
        (displayExport (⟨["Stamp Duty Fee"], [[Cell.num 1200000]]⟩ : Table)).1.cols
        ((displayExport (⟨["Stamp Duty Fee"], [[Cell.num 1200000]]⟩ : Table)).1.rows.getD 0 [])
        "Stamp Duty Fee" = Cell.str "1,200,000" := by
  have h := c4_display_export (⟨["Stamp Duty Fee"], [[Cell.num 1200000]]⟩ : Table)
    "Stamp Duty Fee" (by decide) (by decide) (by decide)
  refine ⟨by decide, h.1, ?_⟩
  rw [h.2.1 0 (by decide)]
  decide
